import Mathlib

/-!
Verification of the xoverlay rendering pipeline (src/main.go) against its
natural-language specification.  Each numbered section embeds one part of the
program; the claim theorems follow at the end of the file.

Conventions used throughout the embedding:
  - Go float64 arithmetic on the quantities handled here (aspect ratios,
    opacities) is modelled by exact rational arithmetic over ℚ.
  - Go integer division truncates toward zero; it is modelled by Int.tdiv.
  - Go conversion of a non-negative float to an integer type truncates,
    i.e. takes the floor.
  - Timestamps are modelled as integers (milliseconds).
-/

set_option maxHeartbeats 1000000

/-! ## Aspect-fit geometry (RenderImage, src/main.go lines 291-310) -/

/-- Fitted rectangle produced by the aspect-fit computation in RenderImage:
dimensions of the scaled image and its destination offset inside the window. -/
structure FitRect where
  fitW : ℤ
  fitH : ℤ
  xOff : ℤ
  yOff : ℤ
deriving DecidableEq

/-- Embeds src/main.go lines 291-310.  aspect and newAspect are the float64
ratios computed by RenderImage; the Go conversion int(x) on the non-negative
float x is the floor; Go integer division (width - newWidth) / 2 truncates
toward zero (Int.tdiv). -/
def computeFit (srcW srcH targetW targetH : ℕ) : FitRect :=
  let aspect : ℚ := (srcW : ℚ) / (srcH : ℚ)
  let newAspect : ℚ := (targetW : ℚ) / (targetH : ℚ)
  if newAspect > aspect then
    let newWidth : ℤ := ⌊aspect * (targetH : ℚ)⌋
    { fitW := newWidth, fitH := (targetH : ℤ)
    , xOff := Int.tdiv ((targetW : ℤ) - newWidth) 2, yOff := 0 }
  else
    let newHeight : ℤ := ⌊(targetW : ℚ) / aspect⌋
    { fitW := (targetW : ℤ), fitH := newHeight
    , xOff := 0, yOff := Int.tdiv ((targetH : ℤ) - newHeight) 2 }

example : computeFit 200 100 400 100 = ⟨200, 100, 100, 0⟩ := by
  norm_num [computeFit]
  decide

lemma tdiv_two_nonneg {a : ℤ} (h : 0 ≤ a) : 0 ≤ Int.tdiv a 2 := by
  rw [Int.tdiv_eq_ediv h (by norm_num)]
  exact Int.ediv_nonneg h (by norm_num)

lemma tdiv_two_le_self {a : ℤ} (h : 0 ≤ a) : Int.tdiv a 2 ≤ a := by
  rw [Int.tdiv_eq_ediv h (by norm_num)]
  exact Int.ediv_le_self 2 h

lemma computeFit_byHeight (srcW srcH targetW targetH : ℕ)
    (hcond : (targetW : ℚ) / (targetH : ℚ) > (srcW : ℚ) / (srcH : ℚ)) :
    computeFit srcW srcH targetW targetH =
      { fitW := ⌊(srcW : ℚ) / (srcH : ℚ) * (targetH : ℚ)⌋, fitH := (targetH : ℤ)
      , xOff := Int.tdiv ((targetW : ℤ) - ⌊(srcW : ℚ) / (srcH : ℚ) * (targetH : ℚ)⌋) 2
      , yOff := 0 } := by
  simp only [computeFit, if_pos hcond]

lemma computeFit_byWidth (srcW srcH targetW targetH : ℕ)
    (hcond : ¬ ((targetW : ℚ) / (targetH : ℚ) > (srcW : ℚ) / (srcH : ℚ))) :
    computeFit srcW srcH targetW targetH =
      { fitW := (targetW : ℤ), fitH := ⌊(targetW : ℚ) / ((srcW : ℚ) / (srcH : ℚ))⌋
      , xOff := 0
      , yOff := Int.tdiv ((targetH : ℤ) - ⌊(targetW : ℚ) / ((srcW : ℚ) / (srcH : ℚ))⌋) 2 } := by
  simp only [computeFit, if_neg hcond]

/-- C1: for positive source and target dimensions, the fitted rectangle computed
by RenderImage preserves the source aspect ratio srcW/srcH within rounding
tolerance (the cross products differ by less than one source dimension), fits
entirely inside the targetW x targetH window, and is centered: the destination
offset equals (target - fit)/2 on one axis and 0 on the other. -/
theorem computeFit_aspect_fit (srcW srcH targetW targetH : ℕ)
    (hsw : 0 < srcW) (hsh : 0 < srcH) (htw : 0 < targetW) (hth : 0 < targetH) :
    |(computeFit srcW srcH targetW targetH).fitW * (srcH : ℤ) -
        (computeFit srcW srcH targetW targetH).fitH * (srcW : ℤ)| <
      max (srcW : ℤ) (srcH : ℤ) ∧
    (0 ≤ (computeFit srcW srcH targetW targetH).xOff ∧
      0 ≤ (computeFit srcW srcH targetW targetH).yOff ∧
      0 ≤ (computeFit srcW srcH targetW targetH).fitW ∧
      0 ≤ (computeFit srcW srcH targetW targetH).fitH ∧
      (computeFit srcW srcH targetW targetH).xOff +
          (computeFit srcW srcH targetW targetH).fitW ≤ (targetW : ℤ) ∧
      (computeFit srcW srcH targetW targetH).yOff +
          (computeFit srcW srcH targetW targetH).fitH ≤ (targetH : ℤ)) ∧
    (((computeFit srcW srcH targetW targetH).xOff =
          Int.tdiv ((targetW : ℤ) - (computeFit srcW srcH targetW targetH).fitW) 2 ∧
        (computeFit srcW srcH targetW targetH).yOff = 0) ∨
      ((computeFit srcW srcH targetW targetH).yOff =
          Int.tdiv ((targetH : ℤ) - (computeFit srcW srcH targetW targetH).fitH) 2 ∧
        (computeFit srcW srcH targetW targetH).xOff = 0)) := by
  have hshq : (0 : ℚ) < (srcH : ℚ) := by exact_mod_cast hsh
  have hswq : (0 : ℚ) < (srcW : ℚ) := by exact_mod_cast hsw
  have hthq : (0 : ℚ) < (targetH : ℚ) := by exact_mod_cast hth
  have htwq : (0 : ℚ) < (targetW : ℚ) := by exact_mod_cast htw
  by_cases hcond : (targetW : ℚ) / (targetH : ℚ) > (srcW : ℚ) / (srcH : ℚ)
  · rw [computeFit_byHeight srcW srcH targetW targetH hcond]
    dsimp only
    set f : ℤ := ⌊(srcW : ℚ) / (srcH : ℚ) * (targetH : ℚ)⌋ with hf
    have hcross : (srcW : ℚ) * (targetH : ℚ) < (targetW : ℚ) * (srcH : ℚ) :=
      (div_lt_div_iff₀ hshq hthq).mp hcond
    have hfl : (f : ℚ) ≤ (srcW : ℚ) / (srcH : ℚ) * (targetH : ℚ) := Int.floor_le _
    have hfu : (srcW : ℚ) / (srcH : ℚ) * (targetH : ℚ) < (f : ℚ) + 1 :=
      Int.lt_floor_add_one _
    have hformula : (srcW : ℚ) / (srcH : ℚ) * (targetH : ℚ) * (srcH : ℚ)
        = (srcW : ℚ) * (targetH : ℚ) := by
      field_simp
    have h1 : (f : ℚ) * (srcH : ℚ) ≤ (srcW : ℚ) * (targetH : ℚ) := by
      calc (f : ℚ) * (srcH : ℚ)
          ≤ (srcW : ℚ) / (srcH : ℚ) * (targetH : ℚ) * (srcH : ℚ) :=
            mul_le_mul_of_nonneg_right hfl (le_of_lt hshq)
        _ = (srcW : ℚ) * (targetH : ℚ) := hformula
    have h2 : (srcW : ℚ) * (targetH : ℚ) < ((f : ℚ) + 1) * (srcH : ℚ) := by
      calc (srcW : ℚ) * (targetH : ℚ)
          = (srcW : ℚ) / (srcH : ℚ) * (targetH : ℚ) * (srcH : ℚ) := hformula.symm
        _ < ((f : ℚ) + 1) * (srcH : ℚ) := by
            exact mul_lt_mul_of_pos_right hfu hshq
    have h1z : f * (srcH : ℤ) ≤ (srcW : ℤ) * (targetH : ℤ) := by exact_mod_cast h1
    have h2z : (srcW : ℤ) * (targetH : ℤ) < (f + 1) * (srcH : ℤ) := by exact_mod_cast h2
    have hfpos : 0 ≤ f := by
      rw [hf]
      exact Int.floor_nonneg.mpr (by positivity)
    have hflt : f < (targetW : ℤ) := by
      rw [hf]
      rw [Int.floor_lt]
      calc (srcW : ℚ) / (srcH : ℚ) * (targetH : ℚ)
          < (targetW : ℚ) / (targetH : ℚ) * (targetH : ℚ) :=
            mul_lt_mul_of_pos_right hcond hthq
        _ = (targetW : ℚ) := by field_simp
        _ = (((targetW : ℤ) : ℚ)) := by push_cast; ring
    refine ⟨?_, ⟨?_, ?_, ?_, ?_, ?_, ?_⟩, Or.inl ⟨rfl, rfl⟩⟩
    · rw [abs_lt]
      constructor
      · have hmax : (srcH : ℤ) ≤ max (srcW : ℤ) (srcH : ℤ) := le_max_right _ _
        nlinarith [h2z]
      · have hmax : (0 : ℤ) < max (srcW : ℤ) (srcH : ℤ) :=
          lt_max_of_lt_right (by exact_mod_cast hsh)
        nlinarith [h1z]
    · exact tdiv_two_nonneg (by omega)
    · exact le_refl 0
    · exact hfpos
    · positivity
    · have := tdiv_two_le_self (a := (targetW : ℤ) - f) (by omega)
      omega
    · omega
  · rw [computeFit_byWidth srcW srcH targetW targetH hcond]
    dsimp only
    set f : ℤ := ⌊(targetW : ℚ) / ((srcW : ℚ) / (srcH : ℚ))⌋ with hf
    have hcross : (targetW : ℚ) * (srcH : ℚ) ≤ (srcW : ℚ) * (targetH : ℚ) := by
      have hle : (targetW : ℚ) / (targetH : ℚ) ≤ (srcW : ℚ) / (srcH : ℚ) :=
        le_of_not_lt hcond
      exact (div_le_div_iff₀ hthq hshq).mp hle
    have hval : (targetW : ℚ) / ((srcW : ℚ) / (srcH : ℚ))
        = (targetW : ℚ) * (srcH : ℚ) / (srcW : ℚ) := by
      rw [div_div_eq_mul_div]
    have hfl : (f : ℚ) ≤ (targetW : ℚ) * (srcH : ℚ) / (srcW : ℚ) := by
      rw [hf, hval] at *
      exact Int.floor_le _
    have hfu : (targetW : ℚ) * (srcH : ℚ) / (srcW : ℚ) < (f : ℚ) + 1 := by
      rw [hf, hval] at *
      exact Int.lt_floor_add_one _
    have hformula : (targetW : ℚ) * (srcH : ℚ) / (srcW : ℚ) * (srcW : ℚ)
        = (targetW : ℚ) * (srcH : ℚ) := by
      field_simp
    have h1 : (f : ℚ) * (srcW : ℚ) ≤ (targetW : ℚ) * (srcH : ℚ) := by
      calc (f : ℚ) * (srcW : ℚ)
          ≤ (targetW : ℚ) * (srcH : ℚ) / (srcW : ℚ) * (srcW : ℚ) :=
            mul_le_mul_of_nonneg_right hfl (le_of_lt hswq)
        _ = (targetW : ℚ) * (srcH : ℚ) := hformula
    have h2 : (targetW : ℚ) * (srcH : ℚ) < ((f : ℚ) + 1) * (srcW : ℚ) := by
      calc (targetW : ℚ) * (srcH : ℚ)
          = (targetW : ℚ) * (srcH : ℚ) / (srcW : ℚ) * (srcW : ℚ) := hformula.symm
        _ < ((f : ℚ) + 1) * (srcW : ℚ) := mul_lt_mul_of_pos_right hfu hswq
    have h1z : f * (srcW : ℤ) ≤ (targetW : ℤ) * (srcH : ℤ) := by exact_mod_cast h1
    have h2z : (targetW : ℤ) * (srcH : ℤ) < (f + 1) * (srcW : ℤ) := by exact_mod_cast h2
    have hfpos : 0 ≤ f := by
      rw [hf]
      exact Int.floor_nonneg.mpr (by positivity)
    have hfle : f ≤ (targetH : ℤ) := by
      rw [hf, hval]
      have hle : (targetW : ℚ) * (srcH : ℚ) / (srcW : ℚ) ≤ (targetH : ℚ) := by
        rw [div_le_iff₀ hswq]
        nlinarith [hcross]
      calc ⌊(targetW : ℚ) * (srcH : ℚ) / (srcW : ℚ)⌋
          ≤ ⌊(targetH : ℚ)⌋ := Int.floor_le_floor hle
        _ = (targetH : ℤ) := by
            rw [show ((targetH : ℕ) : ℚ) = (((targetH : ℤ)) : ℚ) by push_cast; ring]
            exact Int.floor_intCast _
    refine ⟨?_, ⟨?_, ?_, ?_, ?_, ?_, ?_⟩, Or.inr ⟨rfl, rfl⟩⟩
    · rw [abs_lt]
      constructor
      · have hmax : (0 : ℤ) < max (srcW : ℤ) (srcH : ℤ) :=
          lt_max_of_lt_left (by exact_mod_cast hsw)
        nlinarith [h1z]
      · have hmax : (srcW : ℤ) ≤ max (srcW : ℤ) (srcH : ℤ) := le_max_left _ _
        nlinarith [h2z]
    · exact le_refl 0
    · exact tdiv_two_nonneg (by omega)
    · positivity
    · exact hfpos
    · omega
    · have := tdiv_two_le_self (a := (targetH : ℤ) - f) (by omega)
      omega

/-- Witness for computeFit_aspect_fit at the spec's end-to-end scenario,
a 200 x 100 source in a 400 x 100 window. -/
theorem computeFit_aspect_fit_witness :
    |(computeFit 200 100 400 100).fitW * (100 : ℤ) -
        (computeFit 200 100 400 100).fitH * (200 : ℤ)| <
      max (200 : ℤ) (100 : ℤ) ∧
    (0 ≤ (computeFit 200 100 400 100).xOff ∧
      0 ≤ (computeFit 200 100 400 100).yOff ∧
      0 ≤ (computeFit 200 100 400 100).fitW ∧
      0 ≤ (computeFit 200 100 400 100).fitH ∧
      (computeFit 200 100 400 100).xOff + (computeFit 200 100 400 100).fitW ≤ (400 : ℤ) ∧
      (computeFit 200 100 400 100).yOff + (computeFit 200 100 400 100).fitH ≤ (100 : ℤ)) ∧
    (((computeFit 200 100 400 100).xOff =
          Int.tdiv ((400 : ℤ) - (computeFit 200 100 400 100).fitW) 2 ∧
        (computeFit 200 100 400 100).yOff = 0) ∨
      ((computeFit 200 100 400 100).yOff =
          Int.tdiv ((100 : ℤ) - (computeFit 200 100 400 100).fitH) 2 ∧
        (computeFit 200 100 400 100).xOff = 0)) := by
  have h := computeFit_aspect_fit 200 100 400 100
    (by decide) (by decide) (by decide) (by decide)
  exact_mod_cast h

/-- C8 (amended): in the fit-by-height branch (target aspect strictly greater
than source aspect) the fitted width is the floor (Go int() truncation) of
a * targetHeight, not the nearest integer; otherwise the fitted height is the
floor of targetWidth / a. -/
theorem computeFit_branch_formulas (srcW srcH targetW targetH : ℕ)
    (_hsw : 0 < srcW) (_hsh : 0 < srcH) (_htw : 0 < targetW) (_hth : 0 < targetH) :
    ((targetW : ℚ) / (targetH : ℚ) > (srcW : ℚ) / (srcH : ℚ) →
      (computeFit srcW srcH targetW targetH).fitW =
          ⌊(srcW : ℚ) / (srcH : ℚ) * (targetH : ℚ)⌋ ∧
        (computeFit srcW srcH targetW targetH).fitH = (targetH : ℤ)) ∧
    (¬ ((targetW : ℚ) / (targetH : ℚ) > (srcW : ℚ) / (srcH : ℚ)) →
      (computeFit srcW srcH targetW targetH).fitW = (targetW : ℤ) ∧
        (computeFit srcW srcH targetW targetH).fitH =
          ⌊(targetW : ℚ) / ((srcW : ℚ) / (srcH : ℚ))⌋) := by
  constructor
  · intro hcond
    rw [computeFit_byHeight srcW srcH targetW targetH hcond]
    exact ⟨rfl, rfl⟩
  · intro hcond
    rw [computeFit_byWidth srcW srcH targetW targetH hcond]
    exact ⟨rfl, rfl⟩

/-- Witness for computeFit_branch_formulas in the fit-by-height branch of the
spec's 200 x 100 image in a 400 x 100 window. -/
theorem computeFit_branch_formulas_witness :
    (computeFit 200 100 400 100).fitW = ⌊(200 : ℚ) / (100 : ℚ) * (100 : ℚ)⌋ ∧
    (computeFit 200 100 400 100).fitH = (100 : ℤ) :=
  (computeFit_branch_formulas 200 100 400 100
    (by decide) (by decide) (by decide) (by decide)).1 (by norm_num)

/-- C8 counterexample: for a 2 x 3 source in a 100 x 4 window the fit-by-height
branch is taken, and the computed fitted width 2 = floor(2/3 * 4) differs from
round(2/3 * 4) = 3: the code truncates instead of rounding to nearest. -/
theorem computeFit_round_counterexample :
    (100 : ℚ) / (4 : ℚ) > (2 : ℚ) / (3 : ℚ) ∧
    (computeFit 2 3 100 4).fitW = 2 ∧
    round ((2 : ℚ) / (3 : ℚ) * (4 : ℚ)) = 3 ∧
    (computeFit 2 3 100 4).fitW ≠ round ((2 : ℚ) / (3 : ℚ) * (4 : ℚ)) := by
  refine ⟨by norm_num, ?_, by norm_num [round_eq], ?_⟩ <;>
    norm_num [computeFit, round_eq]

/-! ## Uniform opacity mask (RenderImage, src/main.go lines 314-327) -/

/-- Embeds src/main.go line 315: alpha := uint8(fullAlpha * display.imageOpacity)
with fullAlpha = 255.  The Go conversion of a non-negative in-range float64 to
uint8 truncates toward zero, i.e. takes the floor. -/
def uniformMaskAlpha (opacity : ℚ) : ℤ := ⌊255 * opacity⌋

/-- Modelled from the external collaborator golang.org/x/image/draw used at
src/main.go lines 318-327: the alpha channel produced by drawing a source pixel
of 8-bit alpha srcA onto a zeroed RGBA buffer with operator Over and a uniform
SrcMask of 8-bit alpha m.  Channels are expanded to 16 bits (v * 0x101), the
source alpha is scaled by the mask (sa * ma / 0xffff), and the result is stored
back as 8 bits (v16 >> 8). -/
def overMaskedAlpha (srcA m : ℕ) : ℕ := srcA * 257 * (m * 257) / 65535 / 256

/-- Output alpha of an originally opaque pixel after the render pass applies the
uniform opacity mask. -/
def opaqueOutAlpha (opacity : ℚ) : ℕ :=
  overMaskedAlpha 255 (uniformMaskAlpha opacity).toNat

/-- C3 (amended): for opacity in the unit interval the uniform alpha mask value
is the truncation floor(255 * opacity), and an originally opaque pixel comes out
with exactly that alpha. -/
theorem opaqueOutAlpha_eq_floor (opacity : ℚ) (h0 : 0 ≤ opacity) (h1 : opacity ≤ 1) :
    uniformMaskAlpha opacity = ⌊255 * opacity⌋ ∧
    (opaqueOutAlpha opacity : ℤ) = ⌊255 * opacity⌋ := by
  refine ⟨rfl, ?_⟩
  have hnn : (0 : ℤ) ≤ ⌊255 * opacity⌋ := Int.floor_nonneg.mpr (by positivity)
  have hub : ⌊255 * opacity⌋ ≤ 255 := by
    have : (255 : ℚ) * opacity ≤ 255 := by nlinarith
    calc ⌊255 * opacity⌋ ≤ ⌊(255 : ℚ)⌋ := Int.floor_le_floor this
      _ = 255 := by norm_num
  set m : ℕ := (uniformMaskAlpha opacity).toNat with hm
  have hmle : m ≤ 255 := by
    rw [hm]
    simp only [uniformMaskAlpha]
    omega
  have hcalc : overMaskedAlpha 255 m = m := by
    unfold overMaskedAlpha
    have h65535 : 255 * 257 * (m * 257) / 65535 = m * 257 := by
      rw [show 255 * 257 * (m * 257) = 65535 * (m * 257) by ring]
      exact Nat.mul_div_cancel_left _ (by norm_num)
    rw [h65535]
    exact Nat.div_eq_of_lt_le (by omega) (by omega)
  show ((overMaskedAlpha 255 m : ℕ) : ℤ) = ⌊255 * opacity⌋
  rw [hcalc, hm]
  simp only [uniformMaskAlpha]
  exact Int.toNat_of_nonneg hnn

/-- Witness for opaqueOutAlpha_eq_floor at the spec's click scenario opacity
0.25: the opaque pixel comes out with alpha floor(255 * 0.25) = 63. -/
theorem opaqueOutAlpha_eq_floor_witness :
    (uniformMaskAlpha (1/4) = ⌊255 * (1/4 : ℚ)⌋ ∧
      (opaqueOutAlpha (1/4) : ℤ) = ⌊255 * (1/4 : ℚ)⌋) ∧
    ⌊255 * (1/4 : ℚ)⌋ = 63 :=
  ⟨opaqueOutAlpha_eq_floor (1/4) (by norm_num) (by norm_num), by norm_num⟩

/-- C3 counterexample: at opacity 0.25 the render pass gives an originally
opaque pixel output alpha 63 = floor(255 * 0.25), not round(255 * 0.25) = 64
as the claim states. -/
theorem opaqueOutAlpha_not_round :
    opaqueOutAlpha (1/4) = 63 ∧
    round ((255 : ℚ) * (1/4)) = 64 ∧
    (opaqueOutAlpha (1/4) : ℤ) ≠ round ((255 : ℚ) * (1/4)) := by
  have hfl : ⌊(255 : ℚ) * (1/4)⌋ = 63 := by norm_num
  have h63 : opaqueOutAlpha (1/4) = 63 := by
    unfold opaqueOutAlpha uniformMaskAlpha
    rw [show (255 : ℚ) * (1/4) = 255 * (1/4) from rfl] at hfl
    rw [hfl]
    rfl
  refine ⟨h63, by norm_num [round_eq], ?_⟩
  rw [h63]
  norm_num [round_eq]

/-! ## Pixel byte packing (RenderImage, src/main.go lines 331-340) -/

/-- A pixel of the scaled RGBA buffer: 8-bit red, green, blue, alpha channels
as stored in the Go image.RGBA pixel data. -/
structure RGBA8 where
  r : ℕ
  g : ℕ
  b : ℕ
  a : ℕ
deriving DecidableEq

/-- The 16-bit channel value returned by Go color.RGBA.RGBA() for a stored
8-bit channel v: v * 0x101. -/
def chan16 (v : ℕ) : ℕ := v * 257

/-- Go byte(x): truncation to the low 8 bits. -/
def byteOf (v : ℕ) : ℕ := v % 256

/-- Embeds src/main.go lines 333-338: each pixel is read back with RGBA()
(16-bit channels) and appended to the transfer buffer as the four bytes
byte(b), byte(g), byte(r), byte(a). -/
def packPixel (p : RGBA8) : List ℕ :=
  [byteOf (chan16 p.b), byteOf (chan16 p.g), byteOf (chan16 p.r), byteOf (chan16 p.a)]

/-- Reading four transfer bytes back as a pixel, interpreting them in the
blue, green, red, alpha order the packing step emits. -/
def unpackPixel (bytes : List ℕ) : Option RGBA8 :=
  match bytes with
  | [b, g, r, a] => some { r := r, g := g, b := b, a := a }
  | _ => none

/-- C5: the packing step emits the channels in blue, green, red, alpha byte
order, and unpacking those four bytes in that order recovers the original
8-bit RGBA values of the pixel. -/
theorem packPixel_roundTrip (p : RGBA8)
    (hr : p.r < 256) (hg : p.g < 256) (hb : p.b < 256) (ha : p.a < 256) :
    packPixel p = [p.b, p.g, p.r, p.a] ∧
    unpackPixel (packPixel p) = some p := by
  have hbyte : ∀ v : ℕ, v < 256 → byteOf (chan16 v) = v := by
    intro v hv
    simp only [byteOf, chan16]
    omega
  have hpack : packPixel p = [p.b, p.g, p.r, p.a] := by
    simp only [packPixel, hbyte p.b hb, hbyte p.g hg, hbyte p.r hr, hbyte p.a ha]
  refine ⟨hpack, ?_⟩
  rw [hpack]
  rfl

/-- Witness for packPixel_roundTrip at a concrete pixel. -/
theorem packPixel_roundTrip_witness :
    packPixel ⟨10, 20, 30, 255⟩ = [30, 20, 10, 255] ∧
    unpackPixel (packPixel ⟨10, 20, 30, 255⟩) = some ⟨10, 20, 30, 255⟩ :=
  packPixel_roundTrip ⟨10, 20, 30, 255⟩ (by decide) (by decide) (by decide) (by decide)

/-! ## Event handling and view state (HandleEvents, src/main.go lines 438-460) -/

/-- Go float64 division.  Division by zero produces NaN or an infinity, neither
of which is a real number; those outcomes are modelled as none. -/
def goFloatDiv (x y : ℚ) : Option ℚ :=
  if y = 0 then none else some (x / y)

/-- The mutable view state read by the render pass: stored opacity (none models
a float64 NaN/Inf), window dimensions, and the dirty flag of the redraw
scheduler. -/
structure ViewState where
  imageOpacity : Option ℚ
  windowWidth : ℤ
  windowHeight : ℤ
  dirty : Bool
deriving DecidableEq

/-- The display-server events HandleEvents reacts to.  ConfigureNotify carries
uint16 dimensions, ButtonPress carries an int16 horizontal pointer position;
all remaining event kinds are ignored and collapsed into otherEvent. -/
inductive XEvent
  | configureNotify (width height : ℕ)
  | buttonPress (eventX : ℤ)
  | destroyNotify
  | otherEvent
deriving DecidableEq

/-- Embeds requestRedraw (src/main.go lines 133-138) as seen by the view state:
the dirty flag is set (the deadline update is modelled with the scheduler
below). -/
def requestRedrawFlag (s : ViewState) : ViewState :=
  { s with dirty := true }

/-- Embeds one iteration of HandleEvents (src/main.go lines 445-458):
ConfigureNotify updates the dimensions and requests a redraw only when they
changed; ButtonPress clamps the pointer x into [0, windowWidth], stores
clampedX / windowWidth as the opacity and requests a redraw; DestroyNotify
returns and all other events are ignored. -/
def handleEvent (s : ViewState) (e : XEvent) : ViewState :=
  match e with
  | .configureNotify w h =>
      if s.windowWidth ≠ (w : ℤ) ∨ s.windowHeight ≠ (h : ℤ) then
        requestRedrawFlag { s with windowWidth := (w : ℤ), windowHeight := (h : ℤ) }
      else s
  | .buttonPress ex =>
      let x : ℤ := min s.windowWidth (max 0 ex)
      requestRedrawFlag { s with imageOpacity := goFloatDiv (x : ℚ) (s.windowWidth : ℚ) }
  | .destroyNotify => s
  | .otherEvent => s

/-- Folding HandleEvents over a finite sequence of events. -/
def handleEvents (s : ViewState) (es : List XEvent) : ViewState :=
  es.foldl handleEvent s

/-- The stored opacity is a real number in the unit interval. -/
def opacityInUnit (s : ViewState) : Prop :=
  ∃ q : ℚ, s.imageOpacity = some q ∧ 0 ≤ q ∧ q ≤ 1

/-- An event that cannot set the stored window width to zero. -/
def keepsWidthPositive : XEvent → Bool
  | .configureNotify w _ => decide (0 < w)
  | _ => true

lemma handleEvent_buttonPress_opacity (s : ViewState) (ex : ℤ) (hw : 0 < s.windowWidth) :
    (handleEvent s (.buttonPress ex)).imageOpacity =
      some (((min s.windowWidth (max 0 ex) : ℤ) : ℚ) / ((s.windowWidth : ℤ) : ℚ)) ∧
    (handleEvent s (.buttonPress ex)).dirty = true := by
  have hwq : ((s.windowWidth : ℤ) : ℚ) ≠ 0 := by
    have : (0 : ℚ) < ((s.windowWidth : ℤ) : ℚ) := by exact_mod_cast hw
    exact ne_of_gt this
  constructor
  · simp only [handleEvent, requestRedrawFlag, goFloatDiv, if_neg hwq]
  · rfl

/-- C9: a ButtonPress at pointer position ex in a window of positive stored
width sets the stored opacity to clampedX / windowWidth with clampedX the
pointer position clamped into [0, windowWidth], and requests a redraw. -/
theorem buttonPress_sets_opacity (s : ViewState) (ex : ℤ) (hw : 0 < s.windowWidth) :
    (handleEvent s (.buttonPress ex)).imageOpacity =
      some (((min s.windowWidth (max 0 ex) : ℤ) : ℚ) / ((s.windowWidth : ℤ) : ℚ)) ∧
    (handleEvent s (.buttonPress ex)).dirty = true :=
  handleEvent_buttonPress_opacity s ex hw

/-- Witness for buttonPress_sets_opacity: the spec's click at x = 100 in a
400-wide window stores opacity 100 / 400 = 0.25. -/
theorem buttonPress_sets_opacity_witness :
    (handleEvent ⟨some 0, 400, 100, false⟩ (.buttonPress 100)).imageOpacity =
      some (1/4 : ℚ) ∧
    (handleEvent ⟨some 0, 400, 100, false⟩ (.buttonPress 100)).dirty = true := by
  have h := buttonPress_sets_opacity ⟨some 0, 400, 100, false⟩ 100 (by decide)
  refine ⟨?_, h.2⟩
  rw [h.1]
  norm_num

/-- C10 counterexample: starting from a 1 x 1 image (window dimensions 1 x 1)
with opacity 1/2 in [0,1], the event sequence ConfigureNotify(0,0) then
ButtonPress(0) makes HandleEvents compute 0.0 / 0.0, which is a float64 NaN:
the stored opacity is no longer a real number in [0,1]. -/
theorem handleEvents_nan_counterexample :
    (handleEvents ⟨some (1/2), 1, 1, false⟩
        [.configureNotify 0 0, .buttonPress 0]).imageOpacity = none ∧
    ¬ opacityInUnit (handleEvents ⟨some (1/2), 1, 1, false⟩
        [.configureNotify 0 0, .buttonPress 0]) := by
  have hnone : (handleEvents ⟨some (1/2), 1, 1, false⟩
      [.configureNotify 0 0, .buttonPress 0]).imageOpacity = none := by
    simp [handleEvents, handleEvent, requestRedrawFlag, goFloatDiv]
  refine ⟨hnone, ?_⟩
  rintro ⟨q, hq, -, -⟩
  rw [hnone] at hq
  exact Option.noConfusion hq

/-- C10 (amended): from a state whose opacity is in [0,1] and whose stored
width is positive, after any finite event sequence in which every
ConfigureNotify carries a positive width, the stored opacity is still a real
number in [0,1] (and the stored width is still positive). -/
theorem handleEvents_opacity_invariant (s : ViewState) (es : List XEvent)
    (hop : opacityInUnit s) (hw : 0 < s.windowWidth)
    (hes : es.all keepsWidthPositive = true) :
    opacityInUnit (handleEvents s es) ∧ 0 < (handleEvents s es).windowWidth := by
  induction es generalizing s with
  | nil => exact ⟨hop, hw⟩
  | cons e rest ih =>
    rw [List.all_cons, Bool.and_eq_true] at hes
    have hstep : opacityInUnit (handleEvent s e) ∧ 0 < (handleEvent s e).windowWidth := by
      cases e with
      | configureNotify w h =>
          have hwpos : 0 < w := by
            have := hes.1
            simp only [keepsWidthPositive, decide_eq_true_eq] at this
            exact this
          by_cases hchanged : s.windowWidth ≠ (w : ℤ) ∨ s.windowHeight ≠ (h : ℤ)
          · simp only [handleEvent, if_pos hchanged, requestRedrawFlag]
            exact ⟨hop, by exact_mod_cast hwpos⟩
          · simp only [handleEvent, if_neg hchanged]
            exact ⟨hop, hw⟩
      | buttonPress ex =>
          have h := handleEvent_buttonPress_opacity s ex hw
          refine ⟨⟨((min s.windowWidth (max 0 ex) : ℤ) : ℚ) / ((s.windowWidth : ℤ) : ℚ),
            h.1, ?_, ?_⟩, hw⟩
          · apply div_nonneg
            · have : (0 : ℤ) ≤ min s.windowWidth (max 0 ex) := by
                have h0 : (0 : ℤ) ≤ max 0 ex := le_max_left 0 ex
                omega
              exact_mod_cast this
            · have : (0 : ℤ) ≤ s.windowWidth := le_of_lt hw
              exact_mod_cast this
          · rw [div_le_one (by exact_mod_cast hw)]
            have : min s.windowWidth (max 0 ex) ≤ s.windowWidth := min_le_left _ _
            exact_mod_cast this
      | destroyNotify => exact ⟨hop, hw⟩
      | otherEvent => exact ⟨hop, hw⟩
    exact ih (handleEvent s e) hstep.1 hstep.2 hes.2

/-- Witness for handleEvents_opacity_invariant: a resize to 100 x 400 followed
by the spec's click at x = 100 keeps the stored opacity inside [0,1]. -/
theorem handleEvents_opacity_invariant_witness :
    opacityInUnit (handleEvents ⟨some (1/2), 400, 100, false⟩
        [.configureNotify 100 400, .buttonPress 100]) ∧
    0 < (handleEvents ⟨some (1/2), 400, 100, false⟩
        [.configureNotify 100 400, .buttonPress 100]).windowWidth :=
  handleEvents_opacity_invariant ⟨some (1/2), 400, 100, false⟩
    [.configureNotify 100 400, .buttonPress 100]
    ⟨1/2, rfl, by norm_num, by norm_num⟩ (by decide) (by decide)

/-! ## Debounced redraw scheduler (requestRedraw and startRenderer,
src/main.go lines 133-169) -/

/-- The debounce window in milliseconds: requestRedraw sets the deadline to
now + 50ms. -/
def debounceMs : ℤ := 50

/-- Scheduler state: the dirty flag and nextRedraw deadline shared under
renderMu, plus committed, which records that the renderer loop has passed the
check at line 157 and is about to clear the flag and render.  The check and
the clear are separate critical sections in the source, so a request may
interleave between them. -/
structure SchedState where
  dirty : Bool
  nextRedraw : ℤ
  committed : Bool
deriving DecidableEq

/-- Atomic actions on the scheduler state, each carrying its time in ms:
request is a requestRedraw() call (lines 133-138); check is the renderer loop
reading dirty and nextRedraw and testing dirty && now.After(nextRedraw)
(lines 152-157); fire is the renderer clearing the dirty flag and invoking
the render pass (lines 158-162). -/
inductive SchedEvent
  | request (t : ℤ)
  | check (t : ℤ)
  | fire (t : ℤ)
deriving DecidableEq

/-- One atomic step of the scheduler; the optional integer is the time of a
render pass fired by this step.  A check while already committed and a fire
while not committed cannot occur in the renderer loop and are no-ops. -/
def schedStep (s : SchedState) (e : SchedEvent) : SchedState × Option ℤ :=
  match e with
  | .request t =>
      ({ dirty := true, nextRedraw := t + debounceMs, committed := s.committed }, none)
  | .check t =>
      if s.committed then (s, none)
      else if s.dirty = true ∧ s.nextRedraw < t then
        ({ s with committed := true }, none)
      else (s, none)
  | .fire t =>
      if s.committed then ({ s with dirty := false, committed := false }, some t)
      else (s, none)

/-- Running the scheduler over a list of interleaved actions, collecting the
times of all fired render passes. -/
def schedRun (s : SchedState) : List SchedEvent → SchedState × List ℤ
  | [] => (s, [])
  | e :: es =>
      let out := schedStep s e
      let rest := schedRun out.1 es
      (rest.1, out.2.toList ++ rest.2)

/-- The time at which an action happens. -/
def evTime : SchedEvent → ℤ
  | .request t => t
  | .check t => t
  | .fire t => t

/-- The times of the requestRedraw() calls in a trace, in order. -/
def reqTimes (tr : List SchedEvent) : List ℤ :=
  tr.filterMap fun e =>
    match e with
    | .request t => some t
    | _ => none

/-- A trace listed in chronological order. -/
def Chronological (tr : List SchedEvent) : Prop :=
  tr.Pairwise fun a b => evTime a ≤ evTime b

/-- Consecutive times each less than the debounce window after the previous. -/
def GapsLtDebounce (ts : List ℤ) : Prop :=
  List.Chain' (fun a b => b < a + debounceMs) ts

instance (tr : List SchedEvent) : Decidable (Chronological tr) :=
  inferInstanceAs (Decidable (tr.Pairwise fun a b => evTime a ≤ evTime b))

instance (ts : List ℤ) : Decidable (GapsLtDebounce ts) :=
  inferInstanceAs (Decidable (List.Chain' (fun a b => b < a + debounceMs) ts))

lemma reqTimes_append (xs ys : List SchedEvent) :
    reqTimes (xs ++ ys) = reqTimes xs ++ reqTimes ys :=
  List.filterMap_append xs ys _

lemma reqTimes_mem {l : List SchedEvent} {t : ℤ} (h : t ∈ reqTimes l) :
    SchedEvent.request t ∈ l := by
  induction l with
  | nil => simp [reqTimes] at h
  | cons e rest ih =>
    cases e with
    | request t' =>
        rw [show reqTimes (SchedEvent.request t' :: rest) = t' :: reqTimes rest from rfl,
          List.mem_cons] at h
        rcases h with h | h
        · rw [h]; exact List.mem_cons_self _ _
        · exact List.mem_cons_of_mem _ (ih h)
    | check t' =>
        rw [show reqTimes (SchedEvent.check t' :: rest) = reqTimes rest from rfl] at h
        exact List.mem_cons_of_mem _ (ih h)
    | fire t' =>
        rw [show reqTimes (SchedEvent.fire t' :: rest) = reqTimes rest from rfl] at h
        exact List.mem_cons_of_mem _ (ih h)

/-- A clean, uncommitted scheduler ignores a request-free trace. -/
lemma schedRun_quiet (tr : List SchedEvent) (s : SchedState)
    (hd : s.dirty = false) (hc : s.committed = false)
    (hreq : reqTimes tr = []) :
    schedRun s tr = (s, []) := by
  induction tr with
  | nil => rfl
  | cons e rest ih =>
    cases e with
    | request t =>
        exact absurd hreq (by simp [reqTimes])
    | check t =>
        have hstep : schedStep s (.check t) = (s, none) := by
          simp [schedStep, hc, hd]
        simp only [schedRun, hstep, Option.toList_none, List.nil_append]
        exact ih hreq
    | fire t =>
        have hstep : schedStep s (.fire t) = (s, none) := by
          simp [schedStep, hc]
        simp only [schedRun, hstep, Option.toList_none, List.nil_append]
        exact ih hreq

/-- Once the renderer has committed, the first fire action fires the render
pass and nothing fires afterwards in a request-free trace. -/
lemma schedRun_committed (tr : List SchedEvent) : ∀ (s : SchedState) (tc : ℤ),
    s.committed = true →
    reqTimes tr = [] →
    (∀ e ∈ tr, tc ≤ evTime e) →
    (∃ tf0, SchedEvent.fire tf0 ∈ tr) →
    ∃ tf, (schedRun s tr).2 = [tf] ∧ tc ≤ tf := by
  induction tr with
  | nil =>
    intro s tc _ _ _ hfire
    rcases hfire with ⟨tf0, hmem⟩
    exact absurd hmem (List.not_mem_nil _)
  | cons e rest ih =>
    intro s tc hc hreq hts hfire
    cases e with
    | request t =>
        exact absurd hreq (by simp [reqTimes])
    | check t =>
        have hstep : schedStep s (.check t) = (s, none) := by
          simp [schedStep, hc]
        simp only [schedRun, hstep, Option.toList_none, List.nil_append]
        apply ih s tc hc hreq
        · intro e he
          exact hts e (List.mem_cons_of_mem _ he)
        · rcases hfire with ⟨tf0, hmem⟩
          rcases List.mem_cons.mp hmem with h | h
          · exact absurd h (by intro hcontra; cases hcontra)
          · exact ⟨tf0, h⟩
    | fire t =>
        have hstep : schedStep s (.fire t) =
            ({ s with dirty := false, committed := false }, some t) := by
          simp [schedStep, hc]
        have hrest : schedRun { s with dirty := false, committed := false } rest =
            ({ s with dirty := false, committed := false }, []) :=
          schedRun_quiet rest _ rfl rfl hreq
        refine ⟨t, ?_, hts _ (List.mem_cons_self _ _)⟩
        simp only [schedRun, hstep, hrest, Option.toList_some]
        rfl

/-- With a pending (dirty, uncommitted) request whose deadline is d, a
chronological request-free trace containing a check after d and a later fire
fires exactly one render pass, after d. -/
lemma schedRun_pending (X : List SchedEvent) (Y : List SchedEvent) (tc d : ℤ) :
    ∀ s : SchedState, s.dirty = true → s.committed = false → s.nextRedraw = d →
    reqTimes (X ++ SchedEvent.check tc :: Y) = [] →
    Chronological (X ++ SchedEvent.check tc :: Y) →
    d < tc →
    (∃ tf0, SchedEvent.fire tf0 ∈ Y) →
    ∃ tf, (schedRun s (X ++ SchedEvent.check tc :: Y)).2 = [tf] ∧ d < tf := by
  induction X with
  | nil =>
    intro s hd hc hnb hreq hchron hdc hfire
    have hstep : schedStep s (.check tc) = ({ s with committed := true }, none) := by
      simp [schedStep, hc, hd, hnb, hdc]
    simp only [List.nil_append, schedRun, hstep, Option.toList_none, List.nil_append]
    have hts : ∀ e ∈ Y, tc ≤ evTime e := by
      intro e he
      have := (List.pairwise_cons.mp hchron).1 e he
      simpa [evTime] using this
    have h := schedRun_committed Y { s with committed := true } tc rfl
      (by simpa [reqTimes] using hreq) hts hfire
    rcases h with ⟨tf, hrun, htf⟩
    exact ⟨tf, hrun, lt_of_lt_of_le hdc htf⟩
  | cons x X' ih =>
    intro s hd hc hnb hreq hchron hdc hfire
    cases x with
    | request t =>
        exact absurd hreq (by simp [reqTimes])
    | fire t =>
        have hstep : schedStep s (.fire t) = (s, none) := by
          simp [schedStep, hc]
        simp only [List.cons_append, schedRun, hstep, Option.toList_none, List.nil_append]
        exact ih s hd hc hnb (by simpa [reqTimes] using hreq)
          ((List.pairwise_cons.mp hchron).2) hdc hfire
    | check t =>
        by_cases hcommit : d < t
        · have hstep : schedStep s (.check t) = ({ s with committed := true }, none) := by
            simp [schedStep, hc, hd, hnb, hcommit]
          simp only [List.cons_append, schedRun, hstep, Option.toList_none, List.nil_append]
          have hts : ∀ e ∈ X' ++ SchedEvent.check tc :: Y, t ≤ evTime e := by
            intro e he
            have := (List.pairwise_cons.mp hchron).1 e he
            simpa [evTime] using this
          have hfire' : ∃ tf0, SchedEvent.fire tf0 ∈ X' ++ SchedEvent.check tc :: Y := by
            rcases hfire with ⟨tf0, hmem⟩
            exact ⟨tf0, List.mem_append_right _ (List.mem_cons_of_mem _ hmem)⟩
          have h := schedRun_committed (X' ++ SchedEvent.check tc :: Y)
            { s with committed := true } t rfl
            (by simpa [reqTimes] using hreq) hts hfire'
          rcases h with ⟨tf, hrun, htf⟩
          exact ⟨tf, hrun, lt_of_lt_of_le hcommit htf⟩
        · have hstep : schedStep s (.check t) = (s, none) := by
            have : ¬ (s.dirty = true ∧ s.nextRedraw < t) := by
              rw [hnb]
              tauto
            simp [schedStep, hc, this]
          simp only [List.cons_append, schedRun, hstep, Option.toList_none, List.nil_append]
          exact ih s hd hc hnb (by simpa [reqTimes] using hreq)
            ((List.pairwise_cons.mp hchron).2) hdc hfire

lemma schedRun_append (xs ys : List SchedEvent) (s : SchedState) :
    schedRun s (xs ++ ys) =
      ((schedRun (schedRun s xs).1 ys).1,
        (schedRun s xs).2 ++ (schedRun (schedRun s xs).1 ys).2) := by
  induction xs generalizing s with
  | nil => simp [schedRun]
  | cons e rest ih =>
    simp only [List.cons_append, schedRun, List.append_eq]
    rw [ih (schedStep s e).1]
    simp [List.append_assoc]

/-- Processing a chronological trace that ends at its last request, whose
request gaps are all under the debounce window, commits no render: it only
accumulates the pending deadline of the last request. -/
lemma schedRun_to_last_request (P1 : List SchedEvent) (tN : ℤ) :
    ∀ s : SchedState, s.committed = false →
    Chronological (P1 ++ [SchedEvent.request tN]) →
    ((s.dirty = false ∧ GapsLtDebounce (reqTimes (P1 ++ [SchedEvent.request tN]))) ∨
      (∃ r, s.dirty = true ∧ s.nextRedraw = r + debounceMs ∧
        GapsLtDebounce (r :: reqTimes (P1 ++ [SchedEvent.request tN])))) →
    schedRun s (P1 ++ [SchedEvent.request tN]) =
      ({ dirty := true, nextRedraw := tN + debounceMs, committed := false }, []) := by
  induction P1 with
  | nil =>
    intro s hc _ _
    simp only [List.nil_append, schedRun, schedStep, hc]
    rfl
  | cons x P1' ih =>
    intro s hc hchron hinv
    cases x with
    | request t =>
        have hstep : schedStep s (.request t) =
            ({ dirty := true, nextRedraw := t + debounceMs, committed := false }, none) := by
          simp [schedStep, hc]
        simp only [List.cons_append, schedRun, hstep, Option.toList_none, List.nil_append]
        apply ih _ rfl ((List.pairwise_cons.mp hchron).2)
        refine Or.inr ⟨t, rfl, rfl, ?_⟩
        rcases hinv with ⟨_, hgap⟩ | ⟨r, _, _, hgap⟩
        · exact hgap
        · rw [show reqTimes (SchedEvent.request t :: P1' ++ [SchedEvent.request tN])
              = t :: reqTimes (P1' ++ [SchedEvent.request tN]) from rfl] at hgap
          exact (List.chain'_cons.mp hgap).2
    | check t =>
        have hnofire : schedStep s (.check t) = (s, none) := by
          rcases hinv with ⟨hd, _⟩ | ⟨r, hd, hnb, hgap⟩
          · simp [schedStep, hc, hd]
          · -- the next request is within the window, and t precedes it
            cases hrt : reqTimes (P1' ++ [SchedEvent.request tN]) with
            | nil =>
                exact absurd hrt (by simp [reqTimes_append, reqTimes])
            | cons t2 ts2 =>
                have hreqmem : SchedEvent.request t2 ∈ P1' ++ [SchedEvent.request tN] :=
                  reqTimes_mem (by rw [hrt]; exact List.mem_cons_self _ _)
                have hle : t ≤ t2 := by
                  have := (List.pairwise_cons.mp hchron).1 _ hreqmem
                  simpa [evTime] using this
                have hgap2 : t2 < r + debounceMs := by
                  rw [show reqTimes (SchedEvent.check t :: P1' ++ [SchedEvent.request tN])
                      = reqTimes (P1' ++ [SchedEvent.request tN]) from rfl, hrt] at hgap
                  exact (List.chain'_cons.mp hgap).1
                have hnolate : ¬ (s.dirty = true ∧ s.nextRedraw < t) := by
                  rw [hnb]
                  intro hcontra
                  omega
                simp [schedStep, hc, hnolate]
        simp only [List.cons_append, schedRun, hnofire, Option.toList_none, List.nil_append]
        apply ih s hc ((List.pairwise_cons.mp hchron).2)
        rcases hinv with ⟨hd, hgap⟩ | ⟨r, hd, hnb, hgap⟩
        · exact Or.inl ⟨hd, hgap⟩
        · exact Or.inr ⟨r, hd, hnb, hgap⟩
    | fire t =>
        have hstep : schedStep s (.fire t) = (s, none) := by
          simp [schedStep, hc]
        simp only [List.cons_append, schedRun, hstep, Option.toList_none, List.nil_append]
        apply ih s hc ((List.pairwise_cons.mp hchron).2)
        rcases hinv with ⟨hd, hgap⟩ | ⟨r, hd, hnb, hgap⟩
        · exact Or.inl ⟨hd, hgap⟩
        · exact Or.inr ⟨r, hd, hnb, hgap⟩

/-- C2 (amended): every requestRedraw() call sets the deadline to now plus the
debounce window and marks the state dirty; the renderer commits to a render
pass only when it observes the dirty flag strictly after the deadline then in
effect; and N requests each arriving within less than the debounce window of
the previous one produce exactly one render pass, which fires strictly later
than one debounce window after the last request. -/
theorem debounce_coalesces :
    (∀ (s : SchedState) (t : ℤ),
        (schedStep s (.request t)).1.dirty = true ∧
        (schedStep s (.request t)).1.nextRedraw = t + debounceMs) ∧
    (∀ (s : SchedState) (t : ℤ), s.committed = false →
        (schedStep s (.check t)).1.committed = true →
        s.dirty = true ∧ s.nextRedraw < t) ∧
    (∀ (d0 : ℤ) (P1 P2 Q : List SchedEvent) (tN tc : ℤ),
        Chronological (P1 ++ SchedEvent.request tN :: (P2 ++ SchedEvent.check tc :: Q)) →
        GapsLtDebounce
          (reqTimes (P1 ++ SchedEvent.request tN :: (P2 ++ SchedEvent.check tc :: Q))) →
        reqTimes P2 = [] → reqTimes Q = [] →
        tN + debounceMs < tc →
        (∃ tf0, SchedEvent.fire tf0 ∈ Q) →
        ∃ tf, (schedRun { dirty := false, nextRedraw := d0, committed := false }
            (P1 ++ SchedEvent.request tN :: (P2 ++ SchedEvent.check tc :: Q))).2 = [tf] ∧
          tN + debounceMs < tf) := by
  refine ⟨?_, ?_, ?_⟩
  · intro s t
    exact ⟨rfl, rfl⟩
  · intro s t hc hcommit
    by_cases hcond : s.dirty = true ∧ s.nextRedraw < t
    · exact hcond
    · exact absurd hcommit (by simp [schedStep, hc, hcond])
  · intro d0 P1 P2 Q tN tc hchron hgaps hreqP2 hreqQ htc hfire
    have hsplit : P1 ++ SchedEvent.request tN :: (P2 ++ SchedEvent.check tc :: Q)
        = (P1 ++ [SchedEvent.request tN]) ++ (P2 ++ SchedEvent.check tc :: Q) := by
      simp [List.append_assoc]
    rw [hsplit]
    rw [schedRun_append]
    have hchron1 : Chronological (P1 ++ [SchedEvent.request tN]) := by
      apply List.Pairwise.sublist _ (hsplit ▸ hchron)
      exact List.sublist_append_left _ _
    have hgaps1 : GapsLtDebounce (reqTimes (P1 ++ [SchedEvent.request tN])) := by
      have hwhole : reqTimes (P1 ++ SchedEvent.request tN :: (P2 ++ SchedEvent.check tc :: Q))
          = reqTimes P1 ++ [tN] := by
        rw [show SchedEvent.request tN :: (P2 ++ SchedEvent.check tc :: Q)
            = [SchedEvent.request tN] ++ (P2 ++ SchedEvent.check tc :: Q) from rfl]
        rw [reqTimes_append, reqTimes_append]
        rw [show reqTimes [SchedEvent.request tN] = [tN] from rfl]
        rw [show reqTimes (P2 ++ SchedEvent.check tc :: Q)
            = reqTimes P2 ++ reqTimes (SchedEvent.check tc :: Q) from reqTimes_append _ _]
        rw [show reqTimes (SchedEvent.check tc :: Q) = reqTimes Q from rfl]
        rw [hreqP2, hreqQ]
        simp
      rw [reqTimes_append]
      rw [show reqTimes [SchedEvent.request tN] = [tN] from rfl]
      rw [hwhole] at hgaps
      exact hgaps
    have hphase1 := schedRun_to_last_request P1 tN
      { dirty := false, nextRedraw := d0, committed := false } rfl hchron1
      (Or.inl ⟨rfl, hgaps1⟩)
    rw [hphase1]
    have hchron2 : Chronological (P2 ++ SchedEvent.check tc :: Q) := by
      apply List.Pairwise.sublist _ (hsplit ▸ hchron)
      exact List.sublist_append_right _ _
    have hreq2 : reqTimes (P2 ++ SchedEvent.check tc :: Q) = [] := by
      rw [reqTimes_append, hreqP2,
        show reqTimes (SchedEvent.check tc :: Q) = reqTimes Q from rfl, hreqQ]
      rfl
    have hphase2 := schedRun_pending P2 Q tc (tN + debounceMs)
      { dirty := true, nextRedraw := tN + debounceMs, committed := false }
      rfl rfl rfl hreq2 hchron2 htc hfire
    rcases hphase2 with ⟨tf, hrun, htf⟩
    refine ⟨tf, ?_, htf⟩
    rw [hrun]
    rfl

/-- Witness for debounce_coalesces: requests at 0 and 40ms (gap under the
50ms window) interleaved with early checks, then a check at 95ms and the
renderer firing at 96ms: exactly one render pass, after 90 = 40 + 50. -/
theorem debounce_coalesces_witness :
    ∃ tf, (schedRun { dirty := false, nextRedraw := 0, committed := false }
        ([SchedEvent.request 0, SchedEvent.check 20] ++ SchedEvent.request 40 ::
          ([SchedEvent.check 60] ++ SchedEvent.check 95 :: [SchedEvent.fire 96]))).2 = [tf] ∧
      (40 : ℤ) + debounceMs < tf :=
  debounce_coalesces.2.2 0 [SchedEvent.request 0, SchedEvent.check 20]
    [SchedEvent.check 60] [SchedEvent.fire 96] 40 95
    (by decide)
    (show GapsLtDebounce [0, 40] from
      List.chain'_cons.mpr ⟨by norm_num [debounceMs], List.chain'_singleton _⟩)
    (by decide) (by decide) (by decide)
    ⟨96, by decide⟩

/-- C2 counterexample: a request at 0ms, the renderer check passing at 55ms, a
second request at 58ms resetting the deadline to 108ms, and the renderer
clearing and firing at 60ms.  The render pass fires at 60, before the
notBefore deadline 108 in effect at that moment, because a request interleaved
between the check (line 157) and the clear (line 159). -/
theorem render_fires_before_deadline :
    Chronological
      [SchedEvent.request 0, SchedEvent.check 55, SchedEvent.request 58, SchedEvent.fire 60] ∧
    (schedRun { dirty := false, nextRedraw := 0, committed := false }
        [SchedEvent.request 0, SchedEvent.check 55, SchedEvent.request 58,
          SchedEvent.fire 60]).2 = [60] ∧
    (schedRun { dirty := false, nextRedraw := 0, committed := false }
        [SchedEvent.request 0, SchedEvent.check 55, SchedEvent.request 58,
          SchedEvent.fire 60]).1.nextRedraw = 108 ∧
    (60 : ℤ) < 108 := by
  refine ⟨?_, ?_, ?_, ?_⟩ <;> decide

/-! ## Shared-memory transfer (RenderImage, src/main.go lines 342-413) -/

/-- The operations of one shared-memory transfer: the five fallible transfer
steps (plus the server-side segment-handle allocation that precedes the server
attach) and the three deferred cleanups. -/
inductive TStep
  | shmGet
  | shmAttach
  | copyBytes
  | newSegId
  | serverAttach
  | putImage
  | serverDetach
  | shmDetach
  | shmRmid
deriving DecidableEq

/-- Oracle fixing the outcome of every fallible operation of one transfer:
segment creation, process attach, number of bytes copied, server handle
allocation, server attach, put-image, and the three cleanups. -/
structure TransferOracle where
  shmGetOk : Bool
  shmAttachOk : Bool
  copied : ℕ
  newSegOk : Bool
  serverAttachOk : Bool
  putImageOk : Bool
  shmRmidOk : Bool
  shmDetachOk : Bool
  serverDetachOk : Bool
deriving DecidableEq

/-- Result of one transfer: whether RenderImage returns nil for it, the
cleanups that ran (in execution order), and the cleanup failures that were
logged. -/
structure TransferResult where
  ok : Bool
  cleanups : List TStep
  failedCleanups : List TStep
deriving DecidableEq

/-- Runs a Go defer stack: deferred cleanups execute in reverse order of
registration; a failing cleanup is logged and nothing else. -/
def runDefers (stack : List (TStep × Bool)) : List TStep × List TStep :=
  ((stack.reverse).map Prod.fst, ((stack.reverse).filter fun c => !c.2).map Prod.fst)

/-- Embeds the shared-memory transfer of RenderImage (src/main.go lines
342-413): shmget, defer rmid, attach, defer detach, copy with short-copy
check, server segment id, server attach, defer server detach, put image.
Each defer in the source pushes a cleanup onto the stack; every return path
runs the stack in reverse order.  The deferred assignment to err at line 385
cannot change the already-determined return value because RenderImage has no
named result parameter. -/
def transfer (o : TransferOracle) (size : ℕ) : TransferResult :=
  if !o.shmGetOk then { ok := false, cleanups := [], failedCleanups := [] }
  else
    let stack1 := [(TStep.shmRmid, o.shmRmidOk)]
    if !o.shmAttachOk then
      { ok := false, cleanups := (runDefers stack1).1
      , failedCleanups := (runDefers stack1).2 }
    else
      let stack2 := stack1 ++ [(TStep.shmDetach, o.shmDetachOk)]
      if o.copied ≠ size then
        { ok := false, cleanups := (runDefers stack2).1
        , failedCleanups := (runDefers stack2).2 }
      else if !o.newSegOk then
        { ok := false, cleanups := (runDefers stack2).1
        , failedCleanups := (runDefers stack2).2 }
      else if !o.serverAttachOk then
        { ok := false, cleanups := (runDefers stack2).1
        , failedCleanups := (runDefers stack2).2 }
      else
        let stack3 := stack2 ++ [(TStep.serverDetach, o.serverDetachOk)]
        if !o.putImageOk then
          { ok := false, cleanups := (runDefers stack3).1
          , failedCleanups := (runDefers stack3).2 }
        else
          { ok := true, cleanups := (runDefers stack3).1
          , failedCleanups := (runDefers stack3).2 }

/-- The cleanup sequence prescribed by the spec, stated from the spec's words:
unconditionally after the transfer, in reverse order, detach the server-side
handle, detach the process-side mapping, remove the OS segment, each step
present exactly when its setup step had completed. -/
def specCleanups (o : TransferOracle) (size : ℕ) : List TStep :=
  (if o.shmGetOk ∧ o.shmAttachOk ∧ o.copied = size ∧ o.newSegOk ∧ o.serverAttachOk then
    [TStep.serverDetach] else []) ++
  (if o.shmGetOk ∧ o.shmAttachOk then [TStep.shmDetach] else []) ++
  (if o.shmGetOk then [TStep.shmRmid] else [])

/-- The spec's verdict for the transfer: success exactly when the five
transfer steps (with the segment-handle allocation folded into the server
attach) all succeed; the cleanup outcomes play no part. -/
def specTransferOk (o : TransferOracle) (size : ℕ) : Bool :=
  o.shmGetOk && o.shmAttachOk && (o.copied == size) && o.newSegOk &&
    o.serverAttachOk && o.putImageOk

/-- C4: for every outcome of the fallible operations, the cleanups that run
are exactly those whose setup completed, in reverse registration order
(server detach, process detach, segment removal); the transfer's verdict is
determined solely by the transfer steps and never by a cleanup failure; and
the logged cleanup failures are among the cleanups that ran. -/
theorem transfer_cleanup_correct (o : TransferOracle) (size : ℕ) :
    (transfer o size).cleanups = specCleanups o size ∧
    (transfer o size).ok = specTransferOk o size ∧
    (transfer o size).failedCleanups.Sublist (transfer o size).cleanups := by
  rcases o with ⟨g, a, c, n, sa, p, rm, dt, sd⟩
  cases g <;> cases a <;> cases n <;> cases sa <;> cases p <;>
    by_cases hc : c = size <;>
      simp [transfer, specCleanups, specTransferOk, runDefers, hc] <;>
        cases rm <;> cases dt <;> cases sd <;> simp

/-! ## Shutdown ordering (Close, src/main.go lines 171-175) -/

/-- Observable actions around shutdown: the three statements of Close() plus
the renderer goroutine using the connection during an in-flight render pass
and the renderer loop returning. -/
inductive SysAct
  | cancelRenderer
  | connClose
  | wgWaitRet
  | renderConnUse
  | loopExit
deriving DecidableEq

/-- The statements executed by Close() in source order (lines 172-174):
cancel the renderer context, close the X connection, wait on the WaitGroup. -/
def closeActs : List SysAct :=
  [SysAct.cancelRenderer, SysAct.connClose, SysAct.wgWaitRet]

def isCloseAct : SysAct → Bool
  | .cancelRenderer => true
  | .connClose => true
  | .wgWaitRet => true
  | _ => false

/-- Occurrences of b in the part of a trace strictly after the first
occurrence of a. -/
def countAfterFirst (tr : List SysAct) (a b : SysAct) : ℕ :=
  ((tr.dropWhile fun x => !(x == a)).drop 1).count b

/-- A trace of one Close() call interleaved with the renderer goroutine:
Close performs its three statements in source order; wg.Wait() returns only
after the loop has exited; the loop exits exactly once; and no render
activity happens after the loop has exited. -/
def validCloseTrace (tr : List SysAct) : Bool :=
  (tr.filter isCloseAct == closeActs) &&
  (tr.count SysAct.loopExit == 1) &&
  ((tr.takeWhile fun x => !(x == SysAct.wgWaitRet)).contains SysAct.loopExit) &&
  (countAfterFirst tr SysAct.loopExit SysAct.renderConnUse == 0)

/-- C6 counterexample: the trace cancel, connection close, render pass using
the connection, loop exit, wait return is a valid behaviour of Close() as
written (connection closed at line 173, wait only at line 174), yet the
connection is used by a render pass after it has been closed, and the loop
has not exited when the connection is released. -/
theorem close_releases_connection_early :
    validCloseTrace
      [SysAct.cancelRenderer, SysAct.connClose, SysAct.renderConnUse,
        SysAct.loopExit, SysAct.wgWaitRet] = true ∧
    countAfterFirst
      [SysAct.cancelRenderer, SysAct.connClose, SysAct.renderConnUse,
        SysAct.loopExit, SysAct.wgWaitRet] SysAct.connClose SysAct.renderConnUse = 1 ∧
    ([SysAct.cancelRenderer, SysAct.connClose, SysAct.renderConnUse,
        SysAct.loopExit, SysAct.wgWaitRet].takeWhile
      fun x => !(x == SysAct.connClose)).contains SysAct.loopExit = false := by
  refine ⟨?_, ?_, ?_⟩ <;> decide

lemma dropAfterFirst_suffix {α : Type} [DecidableEq α] (a b : α) (l : List α)
    (h : a ∈ l.takeWhile fun x => !(x == b)) :
    ((l.dropWhile fun x => !(x == b)).drop 1) <:+
      ((l.dropWhile fun x => !(x == a)).drop 1) := by
  induction l with
  | nil => simp at h
  | cons x xs ih =>
    by_cases hxb : x = b
    · rw [List.takeWhile_cons, show (!(x == b)) = false by simp [hxb]] at h
      simp at h
    · rw [List.takeWhile_cons, show (!(x == b)) = true by simp [hxb]] at h
      by_cases hxa : x = a
      · rw [show List.dropWhile (fun x => !(x == a)) (x :: xs) = x :: xs by
          simp [List.dropWhile_cons, hxa]]
        rw [show List.dropWhile (fun x => !(x == b)) (x :: xs)
            = List.dropWhile (fun x => !(x == b)) xs by
          simp [List.dropWhile_cons, hxb]]
        rw [show List.drop 1 (x :: xs) = xs from rfl]
        exact ((List.drop_suffix 1 _).trans (List.dropWhile_suffix _))
      · have hmem : a ∈ xs.takeWhile fun x => !(x == b) := by
          rcases List.mem_cons.mp h with h1 | h1
          · exact absurd h1.symm hxa
          · exact h1
        rw [show List.dropWhile (fun x => !(x == a)) (x :: xs)
            = List.dropWhile (fun x => !(x == a)) xs by
          simp [List.dropWhile_cons, hxa]]
        rw [show List.dropWhile (fun x => !(x == b)) (x :: xs)
            = List.dropWhile (fun x => !(x == b)) xs by
          simp [List.dropWhile_cons, hxb]]
        exact ih hmem

/-- C6 (amended): Close() cancels the renderer, then releases the display
connection, and only then waits for the renderer loop to exit; when Close
returns, the loop has exited and no render pass runs or touches the
connection afterwards, but an in-flight render pass may use the connection
after it has been closed (its errors are only logged). -/
theorem close_no_background_after_wait (tr : List SysAct)
    (hv : validCloseTrace tr = true) :
    countAfterFirst tr SysAct.wgWaitRet SysAct.loopExit = 0 ∧
    countAfterFirst tr SysAct.wgWaitRet SysAct.renderConnUse = 0 := by
  rw [validCloseTrace, Bool.and_eq_true, Bool.and_eq_true, Bool.and_eq_true] at hv
  obtain ⟨⟨⟨hfilter, hcount⟩, hbefore⟩, hnorender⟩ := hv
  rw [beq_iff_eq] at hcount
  have hmem : SysAct.loopExit ∈ tr.takeWhile fun x => !(x == SysAct.wgWaitRet) := by
    simpa using hbefore
  constructor
  · have hsplit : (tr.takeWhile fun x => !(x == SysAct.wgWaitRet)) ++
        (tr.dropWhile fun x => !(x == SysAct.wgWaitRet)) = tr :=
      List.takeWhile_append_dropWhile _ _
    have hc := congrArg (List.count SysAct.loopExit) hsplit
    rw [List.count_append, hcount] at hc
    have hpos : 0 < (tr.takeWhile fun x => !(x == SysAct.wgWaitRet)).count SysAct.loopExit :=
      List.count_pos_iff.mpr hmem
    have hdrop0 : (tr.dropWhile fun x => !(x == SysAct.wgWaitRet)).count SysAct.loopExit = 0 := by
      omega
    have hsub : ((tr.dropWhile fun x => !(x == SysAct.wgWaitRet)).drop 1).Sublist
        (tr.dropWhile fun x => !(x == SysAct.wgWaitRet)) :=
      (List.drop_suffix 1 _).sublist
    have := hsub.count_le SysAct.loopExit
    rw [countAfterFirst]
    omega
  · rw [countAfterFirst] at hnorender ⊢
    rw [beq_iff_eq] at hnorender
    have hsuffix := dropAfterFirst_suffix SysAct.loopExit SysAct.wgWaitRet tr hmem
    have := hsuffix.sublist.count_le SysAct.renderConnUse
    omega

/-- Witness for close_no_background_after_wait at the counterexample trace. -/
theorem close_no_background_after_wait_witness :
    countAfterFirst
      [SysAct.cancelRenderer, SysAct.connClose, SysAct.renderConnUse,
        SysAct.loopExit, SysAct.wgWaitRet] SysAct.wgWaitRet SysAct.loopExit = 0 ∧
    countAfterFirst
      [SysAct.cancelRenderer, SysAct.connClose, SysAct.renderConnUse,
        SysAct.loopExit, SysAct.wgWaitRet] SysAct.wgWaitRet SysAct.renderConnUse = 0 :=
  close_no_background_after_wait _ (by decide)

/-! ## Process exit (main, src/main.go lines 30-34) -/

/-- The diagnostic produced when WaitForEvent yields neither an event nor an
error (HandleEvents, src/main.go lines 441-443), wrapped by run and main. -/
def protocolLossMsg : String :=
  "handle events: got no event but err is nil, exiting"

/-- Embeds main() (src/main.go lines 30-34): when run() returns an error it is
printed as one diagnostic line to stderr, and main then returns normally, so
the process exits with status 0 in every case (there is no os.Exit call). -/
def mainExit (runErr : Option String) : List String × ℕ :=
  match runErr with
  | some msg => ([msg], 0)
  | none => ([], 0)

/-- C7 counterexample: on the fatal protocol-loss error the process prints a
single diagnostic line but exits with status 0, not a non-zero status. -/
theorem mainExit_zero_counterexample :
    (mainExit (some protocolLossMsg)).1.length = 1 ∧
    (mainExit (some protocolLossMsg)).2 = 0 ∧
    ¬ (mainExit (some protocolLossMsg)).2 ≠ 0 := by
  refine ⟨rfl, rfl, fun h => h rfl⟩

/-- C7 (amended): on any fatal error the process prints exactly one diagnostic
line and exits with status 0. -/
theorem mainExit_single_line_status_zero (msg : String) :
    mainExit (some msg) = ([msg], 0) := rfl
